import Mathlib

/-!
Verification of the e-commerce price-analyzer pipeline (src/main.py).

The development shallowly embeds the scraping pipeline of `WebScraperApp`:
the markup tree walked by BeautifulSoup, the per-card field extraction of
`scrape_data` (lines 146-167), the surrounding try/except that guards the
stored dataset, and the aggregations invoked by `update_visualization`
(`nlargest`, `groupby(...).mean()`, and the 20-bin histogram).  Machine
floats of the source are modelled as exact rationals; Python `str` is the
Lean `String` manipulated through its character list.
-/

namespace PriceAnalyzer

/-- A node of the parsed markup tree, as navigated by BeautifulSoup:
either a text node or an element with a tag, a `class` attribute list,
further attributes, and children. -/
inductive Node where
  | text (s : String)
  | elem (tag : String) (classes : List String) (attrs : List (String × String)) (children : List Node)

/-- The attribute list of a node (empty for text nodes). -/
def attrsOf : Node → List (String × String)
  | .text _ => []
  | .elem _ _ as _ => as

mutual
/-- The `.text` property of a tag: concatenation of all descendant strings. -/
def nodeText : Node → String
  | .text s => s
  | .elem _ _ _ ch => listText ch

def listText : List Node → String
  | [] => ""
  | n :: ns => nodeText n ++ listText ns
end

mutual
/-- `find_all(tag, class_=cls)` over a list of sibling trees: every element
with the given tag whose class list contains `cls`, in document order. -/
def findAllList (tag cls : String) : List Node → List Node
  | [] => []
  | n :: ns => findAllFrom tag cls n ++ findAllList tag cls ns

def findAllFrom (tag cls : String) : Node → List Node
  | .text _ => []
  | .elem t cs as ch =>
    (if t = tag ∧ cls ∈ cs then [Node.elem t cs as ch] else []) ++ findAllList tag cls ch
end

/-- `element.find_all(tag, class_=cls)`: matches among the descendants of a
node (the node itself is not a candidate, matching BeautifulSoup). -/
def find_all (tag cls : String) : Node → List Node
  | .text _ => []
  | .elem _ _ _ ch => findAllList tag cls ch

/-- `element.find(tag, class_=cls)`: the first descendant match, or `None`. -/
def find (tag cls : String) (n : Node) : Option Node :=
  (find_all tag cls n).head?

/-- Whitespace for Python's `str.strip()` / `float()` (ASCII fragment). -/
def isPySpace (c : Char) : Bool :=
  c == ' ' || c == '\t' || c == '\n' || c == '\r' || c == '\x0b' || c == '\x0c'

/-- Python `str.strip()`: drop leading and trailing whitespace. -/
def pyStrip (s : String) : String :=
  ⟨((s.data.dropWhile isPySpace).reverse.dropWhile isPySpace).reverse⟩

/-- Python `str.replace(old, new)` specialised to a one-character `old`
(as in `main.py` line 152, where `old` is `'$'`): every occurrence of the
character is replaced. -/
def pyReplaceChar (old : Char) (new : List Char) : List Char → List Char
  | [] => []
  | c :: cs => if c == old then new ++ pyReplaceChar old new cs
               else c :: pyReplaceChar old new cs

/-- Numeric value of a digit string, most significant first. -/
def digitsToNat (cs : List Char) : Nat :=
  cs.foldl (fun a c => 10 * a + (c.toNat - '0'.toNat)) 0

/-- The unsigned decimal-literal forms accepted by Python `float()`:
`digits`, `digits.digits`, `digits.`, `.digits` (at least one digit
overall).  Exponent, infinity/nan and underscore forms never arise from
the site's price and rating strings and are outside the model. -/
def pyFloatUnsigned (cs : List Char) : Option ℚ :=
  let ip := cs.takeWhile Char.isDigit
  let rest := cs.dropWhile Char.isDigit
  match rest with
  | [] => if ip.isEmpty then none else some ((digitsToNat ip : ℚ))
  | c :: frac =>
    if c == '.' && frac.all Char.isDigit && !(ip.isEmpty && frac.isEmpty) then
      some ((digitsToNat ip : ℚ) + (digitsToNat frac : ℚ) / (10 : ℚ) ^ frac.length)
    else none

/-- Python `float(s)` on the decimal fragment: strip whitespace, optional
sign, unsigned decimal literal; `none` models the raised `ValueError`. -/
def pyFloat (s : String) : Option ℚ :=
  match (pyStrip s).data with
  | '-' :: rest => (pyFloatUnsigned rest).map (fun q => -q)
  | '+' :: rest => pyFloatUnsigned rest
  | cs => pyFloatUnsigned cs

/-- One scraped listing, the dict built at `main.py` lines 158-164. -/
structure ProductRecord where
  name : String
  price : ℚ
  rating : ℚ
  category : String
  date : String
deriving DecidableEq

/-- The price sub-field of a candidate card (`main.py` line 152):
`float(product.find('h4', class_='price').text.replace('$', ''))`;
`none` models an exception (missing element or `ValueError`). -/
def priceOf (card : Node) : Option ℚ :=
  (find "h4" "price" card).bind fun p =>
    pyFloat ⟨pyReplaceChar '$' [] (nodeText p).data⟩

/-- The rating sub-field (`main.py` line 153):
`float(product.find('div', class_='ratings').get('data-rating', 0))`.
A missing `ratings` element raises (`none`); an absent attribute falls
back to the integer default `0`, and `float(0)` is `0.0`. -/
def extractRating (card : Node) : Option ℚ :=
  (find "div" "ratings" card).bind fun d =>
    match (attrsOf d).lookup "data-rating" with
    | none => some 0
    | some v => pyFloat v

/-- The body of the per-card `try` block (`main.py` lines 150-164): name,
then price, then rating; any failure discards the whole candidate.
`category` is the constant placeholder and `today` stands for
`datetime.now().strftime('%Y-%m-%d')`. -/
def parseProduct (today : String) (card : Node) : Option ProductRecord :=
  match find "a" "title" card with
  | none => none
  | some t =>
    match priceOf card with
    | none => none
    | some pr =>
      match extractRating card with
      | none => none
      | some rt =>
        some { name := pyStrip (nodeText t), price := pr, rating := rt,
               category := "Electronics", date := today }

/-- The `for product in product_cards` loop (`main.py` lines 149-167):
successful candidates are appended in order, each failing candidate
contributes one diagnostic `print` (counted here). -/
def scrapeLoop (today : String) : List Node → List ProductRecord × Nat
  | [] => ([], 0)
  | c :: cs =>
    match parseProduct today c with
    | some r => ((scrapeLoop today cs).1.cons r, (scrapeLoop today cs).2)
    | none => ((scrapeLoop today cs).1, (scrapeLoop today cs).2 + 1)

/-- The extractor: all `div.product-wrapper` cards of the document, fed
through the per-card loop; its output is the new Dataset. -/
def extract (today : String) (doc : Node) : List ProductRecord :=
  (scrapeLoop today (findAllList "div" "product-wrapper" [doc])).1

/-- Number of diagnostic log lines emitted by one extractor run. -/
def diagCount (today : String) (doc : Node) : Nat :=
  (scrapeLoop today (findAllList "div" "product-wrapper" [doc])).2

/-- The product cards of a document, `soup.find_all('div', class_='product-wrapper')`. -/
def productCards (doc : Node) : List Node :=
  findAllList "div" "product-wrapper" [doc]

/-- Fatal-to-operation scrape failures: transport (connection failure or
`raise_for_status`) or a whole-document parse failure. -/
inductive ScrapeError where
  | transport (msg : String)
  | parse (msg : String)
deriving DecidableEq

/-- The state held by the application: `self.data` (`None` at start). -/
structure AppState where
  data : Option (List ProductRecord)
deriving DecidableEq

/-- `scrape_data` (`main.py` lines 130-179): run fetch, whole-document
parse, and extraction inside one `try`; on success store the new dataset,
on any failure fall to the handler, which shows the error and leaves
`self.data` untouched.  The fetch outcome and the parser are inputs since
the network and BeautifulSoup are outside the program. -/
def scrape_data (st : AppState) (today : String)
    (fetchRes : Except ScrapeError String)
    (parseHtml : String → Except ScrapeError Node) :
    AppState × Option ScrapeError :=
  match (do
    let markup ← fetchRes
    let doc ← parseHtml markup
    pure (extract today doc) : Except ScrapeError (List ProductRecord)) with
  | .ok ds => ({ data := some ds }, none)
  | .error e => (st, some e)

/-- Insertion step of a comparison sort: `x` is placed before the first
element `y` with `f x y = true`. -/
def insertSorted (f : α → α → Bool) (x : α) : List α → List α
  | [] => [x]
  | y :: ys => if f x y then x :: y :: ys else y :: insertSorted f x ys

/-- Comparison sort used to give exact meaning to the pandas calls below.
With `f x y` true when `x` may precede `y` strictly-or-equally, the sort
is stable: earlier elements comparing equal stay earlier. -/
def sortBy (f : α → α → Bool) : List α → List α
  | [] => []
  | x :: xs => insertSorted f x (sortBy f xs)

/-- `DataFrame.nlargest(n, 'Rating')` with the default `keep='first'`
(`main.py` line 244): the rows sorted by rating descending, ties kept in
original order, truncated to `n`. -/
def nlargest (n : Nat) (D : List ProductRecord) : List ProductRecord :=
  (sortBy (fun a b => decide (b.rating ≤ a.rating)) D).take n

/-- Bucket of one value in a histogram over `[lo, hi]` with `nb`
equal-width bins (numpy semantics: half-open bins, last bin closed, which
for in-range values is `min (nb-1) ⌊(x-lo)·nb/(hi-lo)⌋`). -/
def histIdx (lo hi : ℚ) (nb : Nat) (x : ℚ) : Nat :=
  min (nb - 1) (⌊(x - lo) * nb / (hi - lo)⌋.toNat)

/-- Lower edge of the histogram range: the minimum price, widened to
`min - 1/2` when all prices coincide (numpy's degenerate-range rule). -/
def histLo (l : List ℚ) : ℚ :=
  match l with
  | [] => 0
  | x :: xs =>
    if xs.foldl min x = xs.foldl max x then xs.foldl min x - 1/2 else xs.foldl min x

/-- Upper edge of the histogram range, widened to `max + 1/2` when all
prices coincide. -/
def histHi (l : List ℚ) : ℚ :=
  match l with
  | [] => 0
  | x :: xs =>
    if xs.foldl min x = xs.foldl max x then xs.foldl max x + 1/2 else xs.foldl max x

/-- `Series.plot(kind='hist', bins=20)` (`main.py` line 228): per-bucket
counts of the 20 equal-width buckets spanning the price range. -/
def price_distribution (l : List ℚ) : List Nat :=
  match l with
  | [] => []
  | x :: xs =>
    (List.range 20).map fun i =>
      (x :: xs).countP fun q => decide (histIdx (histLo (x :: xs)) (histHi (x :: xs)) 20 q = i)

/-- `groupby('Date')['Price'].mean()` (`main.py` line 235): group keys
sorted ascending (pandas `sort=True` default), one arithmetic mean per
distinct date. -/
def price_over_time (D : List ProductRecord) : List (String × ℚ) :=
  (sortBy (fun a b => decide (a ≤ b)) (D.map (fun r => r.date)).dedup).map fun d =>
    (d, ((D.filter fun r => decide (r.date = d)).map fun r => r.price).sum /
        ((D.filter fun r => decide (r.date = d)).length : ℚ))

/-- A well-formed product block: the three sub-elements the extractor
relies on are present, the price text parses to a non-negative decimal
after `'$'` removal, and the rating attribute (when present) parses. -/
def wellFormed (c : Node) : Bool :=
  (find "a" "title" c).isSome &&
  (match priceOf c with
   | some q => decide (0 ≤ q)
   | none => false) &&
  (extractRating c).isSome

/-- Spec-side description of the price cleaning: remove every occurrence
of the currency symbol from the string. -/
def removeDollars (s : String) : String :=
  ⟨s.data.filter fun c => !(c == '$')⟩

/-- A product card shaped like the test site's markup: a title anchor, a
price heading, and a ratings element whose `data-rating` attribute is
optional. -/
def mkCard (nm pr : String) (rt : Option String) : Node :=
  .elem "div" ["thumbnail", "product-wrapper"]  []
    [ .elem "a" ["title"] [] [.text nm],
      .elem "h4" ["price", "pull-right"] [] [.text pr],
      .elem "div" ["ratings"]
        (match rt with | some v => [("data-rating", v)] | none => []) [] ]

/-- A document holding a given list of product cards. -/
def mkDoc (cards : List Node) : Node :=
  .elem "html" [] [] [.elem "body" [] [] [.elem "div" ["row"] [] cards]]

/-! ### Basic facts about the extraction loop -/

theorem scrapeLoop_fst (today : String) (l : List Node) :
    (scrapeLoop today l).1 = l.filterMap (parseProduct today) := by
  induction l with
  | nil => rfl
  | cons c cs ih =>
    cases h : parseProduct today c <;>
      simp [scrapeLoop, h, List.filterMap_cons, ih]

theorem scrapeLoop_snd (today : String) (l : List Node) :
    (scrapeLoop today l).2 = l.countP fun c => (parseProduct today c).isNone := by
  induction l with
  | nil => rfl
  | cons c cs ih =>
    cases h : parseProduct today c <;>
      simp [scrapeLoop, h, List.countP_cons, ih]

theorem extract_eq_filterMap (today : String) (doc : Node) :
    extract today doc = (productCards doc).filterMap (parseProduct today) :=
  scrapeLoop_fst today _

theorem diagCount_eq_countP (today : String) (doc : Node) :
    diagCount today doc = (productCards doc).countP fun c => (parseProduct today c).isNone :=
  scrapeLoop_snd today _

theorem length_filterMap_of_isSome (f : α → Option β) (l : List α)
    (h : ∀ x ∈ l, (f x).isSome = true) :
    (l.filterMap f).length = l.length := by
  induction l with
  | nil => rfl
  | cons x xs ih =>
    cases hfx : f x with
    | none => exact absurd (h x (List.mem_cons_self x xs)) (by simp [hfx])
    | some y =>
      simp [List.filterMap_cons, hfx,
        ih fun z hz => h z (List.mem_cons_of_mem _ hz)]

theorem countP_isNone_eq_zero (f : α → Option β) (l : List α)
    (h : ∀ x ∈ l, (f x).isSome = true) :
    (l.countP fun x => (f x).isNone) = 0 := by
  induction l with
  | nil => rfl
  | cons x xs ih =>
    have hx : (f x).isNone = false := by
      have := h x (List.mem_cons_self x xs)
      cases hfx : f x <;> simp [hfx] at this ⊢
    simp [List.countP_cons, hx, ih fun z hz => h z (List.mem_cons_of_mem _ hz)]

/-! ### The comparison sort: permutation, sortedness, stability -/

theorem insertSorted_perm (f : α → α → Bool) (x : α) (l : List α) :
    List.Perm (insertSorted f x l) (x :: l) := by
  induction l with
  | nil => exact List.Perm.refl _
  | cons y ys ih =>
    by_cases h : f x y
    · simp [insertSorted, h]
    · simpa [insertSorted, h] using (ih.cons y).trans (List.Perm.swap x y ys)

theorem sortBy_perm (f : α → α → Bool) (l : List α) :
    List.Perm (sortBy f l) l := by
  induction l with
  | nil => exact List.Perm.refl _
  | cons x xs ih => exact (insertSorted_perm f x (sortBy f xs)).trans (ih.cons x)

theorem pairwise_insertSorted (f : α → α → Bool)
    (htot : ∀ a b, f a b = false → f b a = true)
    (htrans : ∀ a b c, f a b = true → f b c = true → f a c = true)
    (x : α) (l : List α) (h : l.Pairwise fun a b => f a b = true) :
    (insertSorted f x l).Pairwise fun a b => f a b = true := by
  induction l with
  | nil => simp [insertSorted]
  | cons y ys ih =>
    obtain ⟨hy, hys⟩ := List.pairwise_cons.mp h
    by_cases hxy : f x y
    · rw [insertSorted, if_pos hxy]
      refine List.pairwise_cons.mpr ⟨?_, h⟩
      intro z hz
      rcases List.mem_cons.mp hz with rfl | hz
      · exact hxy
      · exact htrans x y z hxy (hy z hz)
    · rw [insertSorted, if_neg hxy]
      refine List.pairwise_cons.mpr ⟨?_, ih hys⟩
      intro z hz
      rcases List.mem_cons.mp ((insertSorted_perm f x ys).mem_iff.mp hz) with rfl | hz
      · exact htot z y (by simpa using hxy)
      · exact hy z hz

theorem sortBy_pairwise (f : α → α → Bool)
    (htot : ∀ a b, f a b = false → f b a = true)
    (htrans : ∀ a b c, f a b = true → f b c = true → f a c = true)
    (l : List α) :
    (sortBy f l).Pairwise fun a b => f a b = true := by
  induction l with
  | nil => simp [sortBy]
  | cons x xs ih => exact pairwise_insertSorted f htot htrans x _ ih

theorem filter_insertSorted (f : α → α → Bool) (p : α → Bool) (x : α) (l : List α)
    (hcond : p x = true → ∀ y, f x y = false → p y = false) :
    (insertSorted f x l).filter p =
      if p x then x :: l.filter p else l.filter p := by
  induction l with
  | nil => by_cases hpx : p x <;> simp [insertSorted, List.filter_cons, hpx]
  | cons y ys ih =>
    by_cases hxy : f x y
    · by_cases hpx : p x <;> simp [insertSorted, hxy, List.filter_cons, hpx]
    · by_cases hpx : p x
      · have hpy : p y = false := hcond hpx y (by simpa using hxy)
        simp [insertSorted, hxy, List.filter_cons, hpx, hpy, ih]
      · simp [insertSorted, hxy, List.filter_cons, hpx, ih]

theorem filter_sortBy (f : α → α → Bool) (p : α → Bool) (l : List α)
    (hcond : ∀ x, p x = true → ∀ y, f x y = false → p y = false) :
    (sortBy f l).filter p = l.filter p := by
  induction l with
  | nil => rfl
  | cons x xs ih =>
    rw [sortBy, filter_insertSorted f p x _ (hcond x), ih, List.filter_cons]

theorem filter_take_isPre (p : α → Bool) (l : List α) (n : Nat) :
    (l.take n).filter p <+: l.filter p :=
  ⟨(l.drop n).filter p, by rw [← List.filter_append, List.take_append_drop]⟩

/-! ### Counting over histogram buckets -/

theorem sum_map_range_eq_finset (f : Nat → Nat) (n : Nat) :
    ((List.range n).map f).sum = ∑ i ∈ Finset.range n, f i := by
  induction n with
  | zero => rfl
  | succ m ih =>
    rw [List.range_succ, List.map_append, List.sum_append, Finset.sum_range_succ, ih]
    simp

theorem sum_countP_buckets (g : α → Nat) (n : Nat) (hg : ∀ x, g x < n) (l : List α) :
    ((List.range n).map fun i => l.countP fun x => decide (g x = i)).sum = l.length := by
  rw [sum_map_range_eq_finset]
  induction l with
  | nil => simp
  | cons x xs ih =>
    have hcons : ∀ i, ((x :: xs).countP fun y => decide (g y = i)) =
        (xs.countP fun y => decide (g y = i)) + if g x = i then 1 else 0 := by
      intro i; rw [List.countP_cons]; simp
    calc (∑ i ∈ Finset.range n, (x :: xs).countP fun y => decide (g y = i))
        = ∑ i ∈ Finset.range n,
            ((xs.countP fun y => decide (g y = i)) + if g x = i then 1 else 0) :=
          Finset.sum_congr rfl fun i _ => hcons i
      _ = (∑ i ∈ Finset.range n, xs.countP fun y => decide (g y = i)) +
            ∑ i ∈ Finset.range n, if g x = i then 1 else 0 := Finset.sum_add_distrib
      _ = xs.length + 1 := by
          rw [ih, Finset.sum_ite_eq]
          simp [Finset.mem_range.mpr (hg x)]
      _ = (x :: xs).length := rfl

theorem histIdx_lt (lo hi : ℚ) (x : ℚ) : histIdx lo hi 20 x < 20 :=
  Nat.lt_succ_of_le (Nat.min_le_left _ _)

/-! ### Bounds of list folds with `min` and `max` -/

theorem foldl_min_le (a : ℚ) (l : List ℚ) : l.foldl min a ≤ a := by
  induction l generalizing a with
  | nil => exact le_refl a
  | cons b t ih => exact le_trans (ih (min a b)) (min_le_left a b)

theorem le_foldl_max (a : ℚ) (l : List ℚ) : a ≤ l.foldl max a := by
  induction l generalizing a with
  | nil => exact le_refl a
  | cons b t ih => exact le_trans (le_max_left a b) (ih (max a b))

theorem foldl_min_all_eq (a : ℚ) (l : List ℚ) (h : ∀ q ∈ l, q = a) :
    l.foldl min a = a := by
  induction l with
  | nil => rfl
  | cons b t ih =>
    have hb : b = a := h b (List.mem_cons_self b t)
    simp only [List.foldl_cons, hb, min_self]
    exact ih fun q hq => h q (List.mem_cons_of_mem _ hq)

theorem foldl_max_all_eq (a : ℚ) (l : List ℚ) (h : ∀ q ∈ l, q = a) :
    l.foldl max a = a := by
  induction l with
  | nil => rfl
  | cons b t ih =>
    have hb : b = a := h b (List.mem_cons_self b t)
    simp only [List.foldl_cons, hb, max_self]
    exact ih fun q hq => h q (List.mem_cons_of_mem _ hq)

/-! ### The shape of a product card -/

theorem pyReplaceChar_eq_filter (old : Char) (l : List Char) :
    pyReplaceChar old [] l = l.filter fun c => !(c == old) := by
  induction l with
  | nil => rfl
  | cons c cs ih =>
    by_cases h : c == old <;> simp [pyReplaceChar, h, List.filter_cons, ih]

theorem find_title_mkCard (nm pr : String) (rt : Option String) :
    find "a" "title" (mkCard nm pr rt) = some (.elem "a" ["title"] [] [.text nm]) := rfl

theorem find_price_mkCard (nm pr : String) (rt : Option String) :
    find "h4" "price" (mkCard nm pr rt) =
      some (.elem "h4" ["price", "pull-right"] [] [.text pr]) := rfl

theorem find_ratings_mkCard (nm pr : String) (rt : Option String) :
    find "div" "ratings" (mkCard nm pr rt) =
      some (.elem "div" ["ratings"]
        (match rt with | some v => [("data-rating", v)] | none => []) []) := rfl

theorem data_append_empty (s : String) : (s ++ "").data = s.data := by
  show s.data ++ ([] : List Char) = s.data
  exact List.append_nil _

theorem string_eta (l : List Char) : (⟨l⟩ : String).data = l := rfl

theorem priceOf_mkCard (nm pr : String) (rt : Option String) :
    priceOf (mkCard nm pr rt) = pyFloat (removeDollars pr) := by
  rw [priceOf, find_price_mkCard, Option.some_bind]
  have htext : nodeText (.elem "h4" ["price", "pull-right"] [] [.text pr]) = pr ++ "" := rfl
  rw [htext]
  congr 1
  apply congrArg String.mk
  rw [data_append_empty, pyReplaceChar_eq_filter]

theorem extractRating_mkCard_noAttr (nm pr : String) :
    extractRating (mkCard nm pr none) = some 0 := rfl

theorem parseProduct_mkCard (today nm pr : String) :
    parseProduct today (mkCard nm pr none) =
      (pyFloat (removeDollars pr)).map fun q =>
        { name := pyStrip nm, price := q, rating := 0,
          category := "Electronics", date := today } := by
  have hname : pyStrip (nodeText (.elem "a" ["title"] [] [.text nm])) = pyStrip nm := by
    show (⟨((((nm ++ "").data).dropWhile isPySpace).reverse.dropWhile isPySpace).reverse⟩ : String) = _
    rw [data_append_empty]; rfl
  rw [parseProduct, find_title_mkCard]
  cases hp : pyFloat (removeDollars pr) with
  | none => simp [priceOf_mkCard, hp]
  | some q => simp [priceOf_mkCard, hp, extractRating_mkCard_noAttr, hname]

theorem parseProduct_of_wellFormed (today : String) (c : Node)
    (h : wellFormed c = true) :
    ∃ r, parseProduct today c = some r ∧ 0 ≤ r.price := by
  have h' := h
  unfold wellFormed at h'
  rw [Bool.and_eq_true, Bool.and_eq_true] at h'
  obtain ⟨⟨h1, h2⟩, h3⟩ := h'
  obtain ⟨t, ht⟩ := Option.isSome_iff_exists.mp h1
  cases hq : priceOf c with
  | none => rw [hq] at h2; cases h2
  | some q =>
    rw [hq] at h2
    have hq0 : 0 ≤ q := of_decide_eq_true (by exact h2)
    obtain ⟨rt, hrt⟩ := Option.isSome_iff_exists.mp h3
    refine ⟨⟨pyStrip (nodeText t), q, rt, "Electronics", today⟩, ?_, hq0⟩
    simp [parseProduct, ht, hq, hrt]

/-- C1: for valid markup whose product blocks are all well formed (N of
them), `extract` returns exactly N records, each with price ≥ 0. -/
theorem extract_wellformed_count (today : String) (doc : Node)
    (h : ∀ c ∈ productCards doc, wellFormed c = true) :
    (extract today doc).length = (productCards doc).length ∧
    ∀ r ∈ extract today doc, 0 ≤ r.price := by
  constructor
  · rw [extract_eq_filterMap]
    refine length_filterMap_of_isSome _ _ fun c hc => ?_
    obtain ⟨r, hr, _⟩ := parseProduct_of_wellFormed today c (h c hc)
    simp [hr]
  · intro r hr
    rw [extract_eq_filterMap] at hr
    obtain ⟨c, hc, hparse⟩ := List.mem_filterMap.mp hr
    obtain ⟨r', hr', h0⟩ := parseProduct_of_wellFormed today c (h c hc)
    rw [hparse] at hr'
    exact Option.some.inj hr' ▸ h0

/-- Witness for C1 on a document with two well-formed cards. -/
theorem extract_wellformed_count_witness :
    (∀ c ∈ productCards (mkDoc [mkCard "A" "$10" (some "4"), mkCard "B" "$20" none]),
      wellFormed c = true) ∧
    ((extract "2025-10-12"
        (mkDoc [mkCard "A" "$10" (some "4"), mkCard "B" "$20" none])).length =
      (productCards (mkDoc [mkCard "A" "$10" (some "4"), mkCard "B" "$20" none])).length ∧
     ∀ r ∈ extract "2025-10-12"
        (mkDoc [mkCard "A" "$10" (some "4"), mkCard "B" "$20" none]), 0 ≤ r.price) :=
  ⟨by decide, extract_wellformed_count "2025-10-12" _ (by decide)⟩

/-- C8: markup with no block matching the product-card pattern yields an
empty Dataset and no error: the scrape completes with `data = some []`. -/
theorem extract_no_cards (today : String) (doc : Node)
    (h : productCards doc = []) :
    extract today doc = [] ∧
    ∀ st m, scrape_data st today (.ok m) (fun _ => .ok doc) =
      ({ data := some [] }, none) := by
  have he : extract today doc = [] := by
    rw [extract_eq_filterMap, h]; rfl
  refine ⟨he, fun st m => ?_⟩
  show (({ data := some (extract today doc) } : AppState), (none : Option ScrapeError)) = _
  rw [he]

/-- Witness for C8 on a document with no product cards. -/
theorem extract_no_cards_witness :
    productCards (mkDoc [Node.text "no products here"]) = [] ∧
    (extract "2025-10-12" (mkDoc [Node.text "no products here"]) = [] ∧
     ∀ st m, scrape_data st "2025-10-12" (.ok m)
        (fun _ => .ok (mkDoc [Node.text "no products here"])) =
      ({ data := some [] }, none)) :=
  ⟨rfl, extract_no_cards "2025-10-12" _ rfl⟩

/-- C4: when the fetch fails, or the whole-document parse fails, the
scrape aborts with the error surfaced and leaves the stored dataset
exactly as it was. -/
theorem scrape_failure_keeps_dataset (st : AppState) (today : String)
    (fetchRes : Except ScrapeError String)
    (parseHtml : String → Except ScrapeError Node) (e : ScrapeError)
    (h : fetchRes = .error e ∨ ∃ m, fetchRes = .ok m ∧ parseHtml m = .error e) :
    scrape_data st today fetchRes parseHtml = (st, some e) := by
  rcases h with h | ⟨m, hm, hp⟩
  · rw [h]; rfl
  · subst hm
    have hbind : (do
        let markup ← (Except.ok m : Except ScrapeError String)
        let doc ← parseHtml markup
        pure (extract today doc) : Except ScrapeError (List ProductRecord)) =
        Except.error e := by
      show Except.bind (parseHtml m) _ = Except.error e
      rw [hp]; rfl
    unfold scrape_data
    rw [hbind]

/-- Witness for C4: a transport failure leaves a stored one-record
dataset in place, and a parse failure does too. -/
theorem scrape_failure_keeps_dataset_witness :
    scrape_data
      ⟨some [⟨"Old", 10, 4, "Electronics", "2025-10-11"⟩]⟩ "2025-10-12"
      (.error (.transport "connection refused")) (fun _ => .ok (mkDoc [])) =
      (⟨some [⟨"Old", 10, 4, "Electronics", "2025-10-11"⟩]⟩,
        some (.transport "connection refused")) ∧
    scrape_data
      ⟨some [⟨"Old", 10, 4, "Electronics", "2025-10-11"⟩]⟩ "2025-10-12"
      (.ok "<html") (fun _ => .error (.parse "bad document")) =
      (⟨some [⟨"Old", 10, 4, "Electronics", "2025-10-11"⟩]⟩,
        some (.parse "bad document")) :=
  ⟨scrape_failure_keeps_dataset _ _ _ _ _ (Or.inl rfl),
   scrape_failure_keeps_dataset _ _ _ _ _ (Or.inr ⟨"<html", rfl, rfl⟩)⟩

/-- C7: when the ratings element is present but its `data-rating`
attribute is absent, the rating extraction yields 0 rather than failing,
and the candidate is discarded only if the name or price step throws. -/
theorem rating_attr_absent_defaults_zero (today : String) (c d : Node)
    (hd : find "div" "ratings" c = some d)
    (ha : (attrsOf d).lookup "data-rating" = none) :
    extractRating c = some 0 ∧
    ((parseProduct today c).isSome = true ↔
      ((find "a" "title" c).isSome = true ∧ (priceOf c).isSome = true)) := by
  have hrt : extractRating c = some 0 := by
    rw [extractRating, hd, Option.some_bind, ha]
  refine ⟨hrt, ?_⟩
  cases ht : find "a" "title" c with
  | none => simp [parseProduct, ht]
  | some t =>
    cases hq : priceOf c with
    | none => simp [parseProduct, ht, hq]
    | some q => simp [parseProduct, ht, hq, hrt]

/-- Witness for C7 on a card whose ratings element has no attribute. -/
theorem rating_attr_absent_defaults_zero_witness :
    extractRating (mkCard "A" "$10" none) = some 0 ∧
    ((parseProduct "2025-10-12" (mkCard "A" "$10" none)).isSome = true ↔
      ((find "a" "title" (mkCard "A" "$10" none)).isSome = true ∧
       (priceOf (mkCard "A" "$10" none)).isSome = true)) :=
  rating_attr_absent_defaults_zero "2025-10-12" (mkCard "A" "$10" none)
    (.elem "div" ["ratings"] [] []) rfl rfl

/-- C3: when exactly one candidate among the product cards fails
sub-field extraction, `extract` keeps every other candidate in document
order (K−1 records for K candidates) and exactly one diagnostic is
logged; the failure never aborts the rest of the loop. -/
theorem extract_single_malformed (today : String) (doc : Node)
    (A B : List Node) (c : Node)
    (hsplit : productCards doc = A ++ c :: B)
    (hfail : parseProduct today c = none)
    (hok : ∀ x ∈ A ++ B, (parseProduct today x).isSome = true) :
    (extract today doc).length = (productCards doc).length - 1 ∧
    diagCount today doc = 1 ∧
    extract today doc = (A ++ B).filterMap (parseProduct today) := by
  have hA : (A.filterMap (parseProduct today)).length = A.length :=
    length_filterMap_of_isSome _ _ fun x hx =>
      hok x (List.mem_append.mpr (Or.inl hx))
  have hB : (B.filterMap (parseProduct today)).length = B.length :=
    length_filterMap_of_isSome _ _ fun x hx =>
      hok x (List.mem_append.mpr (Or.inr hx))
  have he : extract today doc =
      A.filterMap (parseProduct today) ++ B.filterMap (parseProduct today) := by
    rw [extract_eq_filterMap, hsplit, List.filterMap_append, List.filterMap_cons, hfail]
  refine ⟨?_, ?_, ?_⟩
  · rw [he, List.length_append, hA, hB, hsplit, List.length_append, List.length_cons]
    omega
  · rw [diagCount_eq_countP, hsplit, List.countP_append, List.countP_cons]
    rw [countP_isNone_eq_zero _ A fun x hx =>
          hok x (List.mem_append.mpr (Or.inl hx)),
        countP_isNone_eq_zero _ B fun x hx =>
          hok x (List.mem_append.mpr (Or.inr hx))]
    simp [hfail]
  · rw [he, List.filterMap_append]

/-- Witness for C3: two candidates, the second has a non-numeric price. -/
theorem extract_single_malformed_witness :
    (productCards (mkDoc [mkCard "A" "$10" (some "4"), mkCard "B" "oops" (some "3")]) =
      [mkCard "A" "$10" (some "4")] ++ mkCard "B" "oops" (some "3") :: []) ∧
    ((extract "2025-10-12"
        (mkDoc [mkCard "A" "$10" (some "4"), mkCard "B" "oops" (some "3")])).length =
      (productCards
        (mkDoc [mkCard "A" "$10" (some "4"), mkCard "B" "oops" (some "3")])).length - 1 ∧
     diagCount "2025-10-12"
        (mkDoc [mkCard "A" "$10" (some "4"), mkCard "B" "oops" (some "3")]) = 1 ∧
     extract "2025-10-12"
        (mkDoc [mkCard "A" "$10" (some "4"), mkCard "B" "oops" (some "3")]) =
      ([mkCard "A" "$10" (some "4")] ++ []).filterMap (parseProduct "2025-10-12")) :=
  ⟨rfl, extract_single_malformed "2025-10-12" _ [mkCard "A" "$10" (some "4")] []
    (mkCard "B" "oops" (some "3")) rfl (by decide) (by decide)⟩

/-- C5 counterexample: a candidate whose title text is all whitespace
parses successfully, and the resulting record's name is the empty
string, refuting "every record has a non-empty name". -/
theorem extract_empty_name_cex :
    ∃ r, r ∈ extract "2025-10-12" (mkDoc [mkCard "   " "$10" (some "4")]) ∧
      r.name = "" := by decide

/-- C5 amended: every record produced by `extract` carries, as its name,
the whitespace-trimmed text of its candidate's title sub-element — which
may be empty when that text is empty or all whitespace. -/
theorem extract_name_is_trimmed_title (today : String) (doc : Node) (r : ProductRecord)
    (h : r ∈ extract today doc) :
    ∃ c ∈ productCards doc, ∃ t, find "a" "title" c = some t ∧
      r.name = pyStrip (nodeText t) := by
  rw [extract_eq_filterMap] at h
  obtain ⟨c, hc, hparse⟩ := List.mem_filterMap.mp h
  refine ⟨c, hc, ?_⟩
  cases ht : find "a" "title" c with
  | none => rw [parseProduct, ht] at hparse; cases hparse
  | some t =>
    refine ⟨t, rfl, ?_⟩
    cases hq : priceOf c with
    | none => simp [parseProduct, ht, hq] at hparse
    | some q =>
      cases hrt : extractRating c with
      | none => simp [parseProduct, ht, hq, hrt] at hparse
      | some rt =>
        simp [parseProduct, ht, hq, hrt] at hparse
        rw [← hparse]

/-- Witness for C5's amended statement on a concrete record. -/
theorem extract_name_is_trimmed_title_witness :
    ∃ c ∈ productCards (mkDoc [mkCard "A" "$10" none]),
      ∃ t, find "a" "title" c = some t ∧
        (⟨"A", 10, 0, "Electronics", "2025-10-12"⟩ : ProductRecord).name =
          pyStrip (nodeText t) :=
  extract_name_is_trimmed_title "2025-10-12" (mkDoc [mkCard "A" "$10" none])
    ⟨"A", 10, 0, "Electronics", "2025-10-12"⟩ (by decide)

/-- C10: price cleaning removes every `'$'` (not only a leading one):
the code's `replace('$', '')` equals filtering out all `'$'` characters,
a candidate yields a record exactly when the filtered price text parses
as a decimal, the parsed value becomes the price (so `"5$0"` is accepted
as 50), and a string without `'$'` is passed through unchanged. -/
theorem price_replaces_every_dollar (today nm s : String) :
    pyReplaceChar '$' [] s.data = (removeDollars s).data ∧
    ((parseProduct today (mkCard nm s none)).isSome = true ↔
      (pyFloat (removeDollars s)).isSome = true) ∧
    (∀ q, pyFloat (removeDollars s) = some q →
      parseProduct today (mkCard nm s none) =
        some { name := pyStrip nm, price := q, rating := 0,
               category := "Electronics", date := today }) ∧
    ((∀ ch ∈ s.data, ch ≠ '$') → removeDollars s = s) ∧
    parseProduct today (mkCard "A" "5$0" none) =
      some { name := "A", price := 50, rating := 0,
             category := "Electronics", date := today } := by
  refine ⟨?_, ?_, ?_, ?_, ?_⟩
  · rw [pyReplaceChar_eq_filter]; rfl
  · rw [parseProduct_mkCard]
    cases hp : pyFloat (removeDollars s) <;> simp [hp]
  · intro q hq
    rw [parseProduct_mkCard, hq]
    rfl
  · intro hno
    apply congrArg String.mk
    exact List.filter_eq_self.mpr fun ch hch => by
      simpa using hno ch hch
  · rw [parseProduct_mkCard]
    rfl

/-- Witness for C10: concrete run on the price string `"5$0"`. -/
theorem price_replaces_every_dollar_witness :
    parseProduct "2025-10-12" (mkCard "A" "5$0" none) =
      some { name := "A", price := 50, rating := 0,
             category := "Electronics", date := "2025-10-12" } :=
  (price_replaces_every_dollar "2025-10-12" "A" "5$0").2.2.2.2

/-- C2: `top_rated(D, 10)` — pandas `nlargest(10, 'Rating')` with
`keep='first'` — returns `min(10, |D|)` records sorted descending by
rating, and records of equal rating appear in the order they occur in D
(the kept tied records form a prefix of D's tied records, in order). -/
theorem top_rated_spec (D : List ProductRecord) :
    (nlargest 10 D).length = min 10 D.length ∧
    (nlargest 10 D).Pairwise (fun a b => b.rating ≤ a.rating) ∧
    ∀ q : ℚ, ((nlargest 10 D).filter fun a => decide (a.rating = q)) <+:
      (D.filter fun a => decide (a.rating = q)) := by
  have htot : ∀ a b : ProductRecord,
      decide (b.rating ≤ a.rating) = false → decide (a.rating ≤ b.rating) = true :=
    fun a b h => decide_eq_true (le_of_not_le (of_decide_eq_false h))
  have htrans : ∀ a b c : ProductRecord,
      decide (b.rating ≤ a.rating) = true → decide (c.rating ≤ b.rating) = true →
      decide (c.rating ≤ a.rating) = true :=
    fun a b c h1 h2 =>
      decide_eq_true (le_trans (of_decide_eq_true h2) (of_decide_eq_true h1))
  refine ⟨?_, ?_, ?_⟩
  · rw [nlargest, List.length_take,
      (sortBy_perm (fun a b => decide (b.rating ≤ a.rating)) D).length_eq]
  · exact ((sortBy_pairwise _ htot htrans D).sublist
      (List.take_sublist 10 _)).imp fun h => of_decide_eq_true h
  · intro q
    have hstable : ((sortBy (fun a b => decide (b.rating ≤ a.rating)) D).filter
        fun a => decide (a.rating = q)) = D.filter fun a => decide (a.rating = q) := by
      refine filter_sortBy _ _ D fun a ha b hab => ?_
      have haq : a.rating = q := of_decide_eq_true ha
      have hlt : a.rating < b.rating := lt_of_not_le (of_decide_eq_false hab)
      exact decide_eq_false fun hbq => absurd (haq ▸ hbq ▸ hlt) (lt_irrefl _)
    rw [nlargest, ← hstable]
    exact filter_take_isPre _ _ 10

/-- C9: the average-price-by-date aggregation (pandas
`groupby('Date')['Price'].mean()`) keys exactly the dataset's distinct
dates in strictly ascending order, and each value is the arithmetic mean
of the prices of the records with that date (a non-empty group). -/
theorem price_over_time_spec (D : List ProductRecord) :
    ((price_over_time D).map Prod.fst).Pairwise (fun a b => a < b) ∧
    (∀ d, d ∈ (price_over_time D).map Prod.fst ↔ d ∈ D.map fun r => r.date) ∧
    ∀ p ∈ price_over_time D,
      0 < (D.filter fun r => decide (r.date = p.1)).length ∧
      p.2 = ((D.filter fun r => decide (r.date = p.1)).map fun r => r.price).sum /
            ((D.filter fun r => decide (r.date = p.1)).length : ℚ) := by
  have htot : ∀ a b : String, decide (a ≤ b) = false → decide (b ≤ a) = true :=
    fun a b h => decide_eq_true (le_of_not_le (of_decide_eq_false h))
  have htrans : ∀ a b c : String, decide (a ≤ b) = true → decide (b ≤ c) = true →
      decide (a ≤ c) = true :=
    fun a b c h1 h2 =>
      decide_eq_true (le_trans (of_decide_eq_true h1) (of_decide_eq_true h2))
  have hkeys : (price_over_time D).map Prod.fst =
      sortBy (fun a b => decide (a ≤ b)) ((D.map fun r => r.date).dedup) := by
    have hid : (Prod.fst ∘ fun d : String =>
        (d, ((D.filter fun r => decide (r.date = d)).map fun r => r.price).sum /
            ((D.filter fun r => decide (r.date = d)).length : ℚ))) = id :=
      funext fun d => rfl
    rw [price_over_time, List.map_map, hid, List.map_id]
  have hnodup : (sortBy (fun a b => decide (a ≤ b))
      ((D.map fun r => r.date).dedup)).Nodup :=
    ((sortBy_perm _ _).nodup_iff).mpr ((D.map fun r => r.date).nodup_dedup)
  refine ⟨?_, ?_, ?_⟩
  · rw [hkeys]
    exact (((sortBy_pairwise _ htot htrans _).imp
      fun h => of_decide_eq_true h).and hnodup).imp fun h => lt_of_le_of_ne h.1 h.2
  · intro d
    rw [hkeys, (sortBy_perm _ _).mem_iff, List.mem_dedup]
  · intro p hp
    rw [price_over_time] at hp
    obtain ⟨d, hd, rfl⟩ := List.mem_map.mp hp
    refine ⟨?_, rfl⟩
    have hd' : d ∈ D.map fun r => r.date :=
      List.mem_dedup.mp ((sortBy_perm _ _).mem_iff.mp hd)
    obtain ⟨r, hr, hrd⟩ := List.mem_map.mp hd'
    exact List.length_pos_of_mem (List.mem_filter.mpr ⟨hr, by simp [hrd]⟩)

/-- C6: the price histogram (`plot(kind='hist', bins=20)`) has exactly 20
equal-width buckets, its per-bucket counts sum exactly to |D| for every
non-empty dataset, the bucket range has positive width even when all
prices are equal (no division by zero), and in that degenerate case every
record falls into the single bucket 10. -/
theorem price_distribution_spec (x : ℚ) (xs : List ℚ) :
    (price_distribution (x :: xs)).length = 20 ∧
    (price_distribution (x :: xs)).sum = (x :: xs).length ∧
    histLo (x :: xs) < histHi (x :: xs) ∧
    ((∀ q ∈ x :: xs, q = x) →
      ∀ q ∈ x :: xs, histIdx (histLo (x :: xs)) (histHi (x :: xs)) 20 q = 10) := by
  refine ⟨?_, ?_, ?_, ?_⟩
  · simp [price_distribution]
  · rw [price_distribution]
    exact sum_countP_buckets _ 20 (histIdx_lt _ _) (x :: xs)
  · by_cases h : xs.foldl min x = xs.foldl max x
    · simp only [histLo, histHi]
      rw [if_pos h, if_pos h, h]
      linarith
    · simp only [histLo, histHi]
      rw [if_neg h, if_neg h]
      exact lt_of_le_of_ne (le_trans (foldl_min_le x xs) (le_foldl_max x xs)) h
  · intro hall q hq
    have hqx : q = x := hall q hq
    have hallxs : ∀ z ∈ xs, z = x := fun z hz => hall z (List.mem_cons_of_mem _ hz)
    have hmin : xs.foldl min x = x := foldl_min_all_eq x xs hallxs
    have hmax : xs.foldl max x = x := foldl_max_all_eq x xs hallxs
    have hcond : xs.foldl min x = xs.foldl max x := by rw [hmin, hmax]
    rw [hqx]
    simp only [histLo, histHi, histIdx]
    rw [if_pos hcond, if_pos hcond, hmin, hmax]
    have h1 : ((x + 1/2) - (x - 1/2) : ℚ) = 1 := by ring
    have h2 : ((x - (x - 1/2)) : ℚ) = 1/2 := by ring
    rw [h1, h2, div_one]
    norm_num
    rfl

end PriceAnalyzer
